import Mathlib

set_option maxRecDepth 100000

/-!
Verification development for the event ingestion / normalization /
deduplication pipeline (backend/services/normalizer.js,
backend/services/eventProcessor.js, backend/models/Event.js,
backend/routes/aggregates.js).

The JavaScript code is shallowly embedded:
* JSON payload values become the mutual inductive type JSValue; a JS
  object is an ordered association list, since JS objects preserve
  string-key insertion order and JSON.stringify serializes keys in that
  order.
* SHA-256 content digests are modelled by the data that is serialized
  and hashed: the digest of a canonical serialization is a
  deterministic, collision-free (by the documented design assumption)
  function of the serialized structure, so two hashes are equal exactly
  when the hashed structures are equal.  The raw-event hash therefore
  is the ordered pair (source, payload) and the normalized hash is the
  ordered triple (client_id, metric, amount), mirroring the exact
  objects the code passes to JSON.stringify before hashing.
* The MongoDB store becomes an explicit Store value; a transaction is
  modelled by threading a session copy of the store, committing by
  adopting the copy and aborting by returning to the committed value.
-/

mutual

/-- A JavaScript / JSON value as it can occur in an event payload.
Payloads arrive through JSON.parse, so functions and Date objects
cannot occur in them; objects are ordered association lists. -/
inductive JSValue where
  | str (s : String)
  | num (q : ℚ)
  | bool (b : Bool)
  | null
  | obj (fields : JSFields)
  | arr (elems : JSElems)
deriving DecidableEq

/-- The ordered fields of a JS object. -/
inductive JSFields where
  | nil
  | cons (key : String) (value : JSValue) (rest : JSFields)
deriving DecidableEq

/-- The ordered elements of a JS array. -/
inductive JSElems where
  | nil
  | cons (value : JSValue) (rest : JSElems)
deriving DecidableEq

end

/-- Build the ordered field structure of a JS object literal from a
list of key-value pairs, preserving order. -/
def JSFields.ofList : List (String × JSValue) → JSFields
  | [] => .nil
  | (k, v) :: rest => .cons k v (JSFields.ofList rest)

/-- A JS object literal with the given fields in the given order. -/
def jobj (l : List (String × JSValue)) : JSValue :=
  .obj (JSFields.ofList l)

/-- First binding of a key in the field structure of an object.  A JS
object cannot hold the same key twice, so on well-formed payloads this
is the unique binding. -/
def JSFields.lookup (k : String) : JSFields → Option JSValue
  | .nil => none
  | .cons k2 v rest => if k2 = k then some v else JSFields.lookup k rest

/-- JS truthiness test, negated: jsFalsy v is true when !v holds in JS. -/
def jsFalsy : JSValue → Bool
  | .str s => s == ""
  | .num q => q == 0
  | .bool b => !b
  | .null => true
  | .obj _ => false
  | .arr _ => false

/-- Whether typeof v === 'object' holds in JS (true for objects, arrays
and null). -/
def isTypeofObject : JSValue → Bool
  | .obj _ => true
  | .arr _ => true
  | .null => true
  | _ => false

/-- Multiplicity of the factor p in n together with the cofactor,
computed with a structural fuel bound (n steps suffice, since every
recursive step divides by p ≥ 2). -/
def factorMultiplicityAux (p : Nat) : Nat → Nat → Nat × Nat
  | 0, n => (0, n)
  | fuel + 1, n =>
    if 2 ≤ p ∧ 0 < n ∧ n % p = 0 then
      let r := factorMultiplicityAux p fuel (n / p)
      (r.1 + 1, r.2)
    else (0, n)

def factorMultiplicity (p n : Nat) : Nat × Nat :=
  factorMultiplicityAux p n n

/-- The exponent part of an exponential JS number rendering, always
carrying an explicit sign. -/
def expString (e : ℤ) : String :=
  if e < 0 then "-" ++ toString (-e) else "+" ++ toString e

/-- Rendering of a JS number for String(value), following the
ECMAScript Number-to-String algorithm on the values this model can
hold exactly.  JSON numbers are binary doubles, whose exact values are
finite decimal fractions; for a non-zero such value with shortest
digit string s (k digits, no trailing zero) and decimal position n
(value = s interpreted as an integer, times 10 to the n - k), the
rendering is positional when -6 < n ≤ 21 and exponential otherwise,
matching String(1.5) = "1.5", String(0.0000001) = "1e-7" and
String(1e21) = "1e+21".  A rational that is not a finite decimal
cannot arise from a JSON payload; it falls back to an explicit
fraction rendering. -/
def numToString (q : ℚ) : String :=
  if q = 0 then "0"
  else
    let sign := if q < 0 then "-" else ""
    let a := q.num.natAbs
    let c2 := factorMultiplicity 2 q.den
    let c5 := factorMultiplicity 5 c2.2
    if c5.2 ≠ 1 then sign ++ toString a ++ "/" ++ toString q.den
    else
      let kk := max c2.1 c5.1
      let scaled := a * 10 ^ kk / q.den
      let strip := factorMultiplicity 10 scaled
      let s := toString strip.2
      let k := s.length
      let n : ℤ := (k : ℤ) + (strip.1 : ℤ) - (kk : ℤ)
      sign ++
        (if (k : ℤ) ≤ n ∧ n ≤ 21 then
          s ++ String.mk (List.replicate (n - k).toNat '0')
        else if 0 < n ∧ n ≤ 21 then
          s.take n.toNat ++ "." ++ s.drop n.toNat
        else if -6 < n ∧ n ≤ 0 then
          "0." ++ String.mk (List.replicate (-n).toNat '0') ++ s
        else if k = 1 then s ++ "e" ++ expString (n - 1)
        else s.take 1 ++ "." ++ s.drop 1 ++ "e" ++ expString (n - 1))

example : numToString (3 / 2 : ℚ) = "1.5" := by with_unfolding_all decide

example : numToString (-2401 / 2 : ℚ) = "-1200.5" := by with_unfolding_all decide

example : numToString (5 : ℚ) = "5" := by with_unfolding_all decide

example : numToString (100 : ℚ) = "100" := by with_unfolding_all decide

example : numToString (1 / 4 : ℚ) = "0.25" := by with_unfolding_all decide

example : numToString (1 / 1000000 : ℚ) = "0.000001" := by
  with_unfolding_all decide

example : numToString (1 / 10000000 : ℚ) = "1e-7" := by
  with_unfolding_all decide

mutual

/-- String(value) for a JS value (the conversions relevant to payload
values: primitives, objects and arrays). -/
def jsToString : JSValue → String
  | .str s => s
  | .num q => numToString q
  | .bool b => if b then "true" else "false"
  | .null => "null"
  | .obj _ => "[object Object]"
  | .arr es => String.intercalate "," (jsToStringElems es)

/-- Array.prototype.toString joins elements with commas, rendering
null elements as the empty string. -/
def jsToStringElems : JSElems → List String
  | .nil => []
  | .cons .null rest => "" :: jsToStringElems rest
  | .cons e rest => jsToString e :: jsToStringElems rest

end

/-- payload.hasOwnProperty(k) combined with payload[k]: the value
stored under string key k of a JS object, none when the key is absent.
Arrays have no string-named own properties. -/
def jsPayloadLookup (payload : JSValue) (k : String) : Option JSValue :=
  match payload with
  | .obj fields => fields.lookup k
  | _ => none

/-! ## Normalizer (backend/services/normalizer.js) -/

namespace Normalizer

/-- Characters kept by the amount cleaning step, which replaces the
class complement of [0-9.-] with the empty string. -/
def isAmountChar (c : Char) : Bool := c.isDigit || c == '.' || c == '-'

/-- Digits to the natural number they denote, most significant first. -/
def digitsToNat (ds : List Char) : Nat :=
  ds.foldl (fun a c => a * 10 + (c.toNat - 48)) 0

/-- Fractional digits after the decimal point as a rational in [0, 1). -/
def fracToRat (ds : List Char) : ℚ :=
  (digitsToNat ds : ℚ) / ((10 : ℚ) ^ ds.length)

/-- parseFloat on a string that has already been cleaned to the
alphabet of digits, dots and signs: optional sign, then integer
digits, then an optional fractional part; NaN (none) when no digit was
read.  Exponents cannot survive the cleaning step, which removes
letters. -/
def parseFloatChars (cs : List Char) : Option ℚ :=
  let signAndRest : Bool × List Char :=
    match cs with
    | '-' :: r => (true, r)
    | '+' :: r => (false, r)
    | r => (false, r)
  let ip := signAndRest.2.takeWhile Char.isDigit
  let rest := signAndRest.2.dropWhile Char.isDigit
  let fp :=
    match rest with
    | '.' :: r => r.takeWhile Char.isDigit
    | _ => []
  if ip.isEmpty && fp.isEmpty then none
  else
    let mag : ℚ := (digitsToNat ip : ℚ) + fracToRat fp
    some (if signAndRest.1 then -mag else mag)

/-- Type converter for amount: numeric passthrough; strings are
cleaned and parsed as floating point, with NaN mapped to null; every
other type maps to null. -/
def amountConverter : JSValue → Option ℚ
  | .num q => some q
  | .str s => parseFloatChars (s.toList.filter isAmountChar)
  | _ => none

end Normalizer

/-- A calendar date at midnight UTC, the only time-of-day the
timestamp patterns of the normalizer can produce. -/
structure UTCDate where
  year : Nat
  month : Nat
  day : Nat
deriving DecidableEq

namespace Normalizer

def isLeapYear (y : Nat) : Bool :=
  (y % 4 == 0 && y % 100 != 0) || y % 400 == 0

def daysInMonth (y m : Nat) : Nat :=
  if m = 1 || m = 3 || m = 5 || m = 7 || m = 8 || m = 10 || m = 12 then 31
  else if m = 4 || m = 6 || m = 9 || m = 11 then 30
  else if m = 2 then (if isLeapYear y then 29 else 28)
  else 0

/-- Validity of the ISO string the code builds from the captured
digits: new Date of an out-of-range month or day is an invalid date. -/
def validDate (y m d : Nat) : Bool :=
  1 ≤ m && m ≤ 12 && 1 ≤ d && d ≤ daysInMonth y m

/-- Read exactly n leading digits, returning their value and the rest. -/
def takeDigits (n : Nat) (cs : List Char) : Option (Nat × List Char) :=
  let ds := cs.take n
  if ds.length = n && ds.all Char.isDigit then some (digitsToNat ds, cs.drop n)
  else none

/-- Consume the separator demanded by a date pattern (none for the
eight-digit pattern). -/
def consumeSep (sep : Option Char) (cs : List Char) : Option (List Char) :=
  match sep with
  | none => some cs
  | some c =>
    match cs with
    | c2 :: rest => if c2 = c then some rest else none
    | [] => none

/-- One anchored date pattern of the timestamp converter: four year
digits, two month digits and two day digits with the given separator
between the groups, matching only at the start of the string. -/
def matchDatePattern (sep : Option Char) (cs : List Char) :
    Option (Nat × Nat × Nat) := do
  let (y, r1) ← takeDigits 4 cs
  let r2 ← consumeSep sep r1
  let (m, r3) ← takeDigits 2 r2
  let r4 ← consumeSep sep r3
  let (d, _) ← takeDigits 2 r4
  pure (y, m, d)

/-- Try one pattern: a match only produces a date when the resulting
ISO string denotes a valid date; on an invalid date the loop continues
with the next pattern. -/
def tryDatePattern (sep : Option Char) (cs : List Char) : Option UTCDate :=
  match matchDatePattern sep cs with
  | some (y, m, d) => if validDate y m d then some ⟨y, m, d⟩ else none
  | none => none

/-- Type converter for timestamp: Date instances cannot occur in a
parsed JSON payload, so the instanceof Date branch is unreachable;
strings are tried against the slash, dash and digits-only prefix
patterns in source order.  The final generic new Date(value) fallback
is modelled as unparseable; no verified claim depends on a string that
only the generic fallback would accept. -/
def timestampConverter : JSValue → Option UTCDate
  | .str s =>
    let cs := s.toList
    match tryDatePattern (some '/') cs with
    | some d => some d
    | none =>
      match tryDatePattern (some '-') cs with
      | some d => some d
      | none => tryDatePattern none cs
  | _ => none

/-- Type converter for metric: string passthrough; any other value v
becomes String(v || ''), that is the empty string when v is falsy and
the default string rendering of v otherwise. -/
def metricConverter (v : JSValue) : String :=
  match v with
  | .str s => s
  | _ => if jsFalsy v then "" else jsToString v

end Normalizer

/-- The raw event handed to the processor: a source identifier and an
arbitrary payload value. -/
structure EventInput where
  source : String
  payload : JSValue
deriving DecidableEq

/-- The normalized-content fingerprint: the code hashes JSON.stringify
of the fixed-key object holding client_id, metric and amount
(timestamp deliberately excluded), an injective encoding of this
triple; none stands for the JS null stored in an unpopulated slot. -/
abbrev NormalizedHash := String × Option String × Option ℚ

/-- The canonical record the normalizer produces. -/
structure NormalizedRecord where
  client_id : String
  metric : Option String
  amount : Option ℚ
  timestamp : Option UTCDate
  normalizedHash : NormalizedHash
deriving DecidableEq

/-- Outcome of the normalizer: a canonical record or a structured
error; the normalizer never throws past its boundary. -/
inductive NormalizeResult where
  | ok (record : NormalizedRecord)
  | error (msg : String)
deriving DecidableEq

namespace Normalizer

/-- The default field-mapping table in its JS object insertion order;
later entries overwrite earlier ones when both raw fields are
present. -/
def defaultFieldMappings : List (String × String) :=
  [("metric", "metric"), ("amount", "amount"), ("timestamp", "timestamp"),
   ("value", "metric"), ("price", "amount"), ("date", "timestamp"),
   ("time", "timestamp")]

/-- The property names a plain JS object inherits from
Object.prototype.  Reading fieldMappings[source] for one of these
yields the inherited member (a function, or Object.prototype itself
for the last entry): a truthy value with no enumerable own properties,
so Object.entries over it produces an empty mapping list. -/
def objectPrototypeKeys : List String :=
  ["constructor", "hasOwnProperty", "isPrototypeOf",
   "propertyIsEnumerable", "toLocaleString", "toString", "valueOf",
   "__defineGetter__", "__defineSetter__", "__lookupGetter__",
   "__lookupSetter__", "__proto__"]

/-- The mapping table this.fieldMappings[source] ||
this.fieldMappings.default resolves to, with the JS prototype chain
modelled: the configuration object owns only the default table, so
the key "default" (and, through the falsy fallback, every key the
object neither owns nor inherits) resolves to the default table,
while a key naming an inherited Object.prototype member resolves to
that truthy member, whose enumerable entry list is empty. -/
def resolveFieldMappings (source : String) : List (String × String) :=
  if source ∈ objectPrototypeKeys then [] else defaultFieldMappings

/-- The three canonical slots the mapping loop can populate, each
initialized to JS null. -/
structure CanonicalSlots where
  metric : Option String
  amount : Option ℚ
  timestamp : Option UTCDate
deriving DecidableEq

/-- One iteration of the mapping loop: when the payload owns the raw
field and the normalized record owns the canonical field, the slot is
overwritten with the converter result (possibly null).  Under the
default table the canonical field is always one of the three slots
below, each of which has a registered converter. -/
def applyFieldMapping (payload : JSValue) (slots : CanonicalSlots)
    (mapping : String × String) : CanonicalSlots :=
  match jsPayloadLookup payload mapping.1 with
  | none => slots
  | some v =>
    if mapping.2 = "metric" then { slots with metric := some (metricConverter v) }
    else if mapping.2 = "amount" then { slots with amount := amountConverter v }
    else if mapping.2 = "timestamp" then
      { slots with timestamp := timestampConverter v }
    else slots

/-- Normalizer.normalize: validation, resolution of the mapping table
for the source, field mapping with type conversion, and the
normalized-content hash over (client_id, metric, amount) only.  The
surrounding try/catch is unreachable because every converter is
total. -/
def normalize (rawEvent : EventInput) : NormalizeResult :=
  if rawEvent.source = "" || jsFalsy rawEvent.payload ||
      !(isTypeofObject rawEvent.payload) then
    .error "Invalid event: missing source or payload"
  else
    let slots := (resolveFieldMappings rawEvent.source).foldl
      (applyFieldMapping rawEvent.payload) ⟨none, none, none⟩
    .ok { client_id := rawEvent.source
          metric := slots.metric
          amount := slots.amount
          timestamp := slots.timestamp
          normalizedHash := (rawEvent.source, slots.metric, slots.amount) }

end Normalizer

example :
    Normalizer.normalize ⟨"A", jobj [("metric", .str "x"), ("amount", .str "10")]⟩ =
      .ok { client_id := "A", metric := some "x", amount := some 10,
            timestamp := none,
            normalizedHash := ("A", some "x", some 10) } := by with_unfolding_all decide

example :
    Normalizer.normalize ⟨"A", jobj [("amount", .str "1,200.50")]⟩ =
      .ok { client_id := "A", metric := none, amount := some (120050 / 100 : ℚ),
            timestamp := none,
            normalizedHash := ("A", none, some (120050 / 100 : ℚ)) } := by with_unfolding_all decide

example :
    Normalizer.normalize ⟨"A", jobj [("timestamp", .str "2024/01/01")]⟩ =
      .ok { client_id := "A", metric := none, amount := none,
            timestamp := some ⟨2024, 1, 1⟩,
            normalizedHash := ("A", none, none) } := by with_unfolding_all decide

example :
    Normalizer.normalize ⟨"", jobj []⟩ =
      .error "Invalid event: missing source or payload" := by with_unfolding_all decide

example :
    Normalizer.normalize ⟨"A", .str "not an object"⟩ =
      .error "Invalid event: missing source or payload" := by with_unfolding_all decide

example :
    Normalizer.normalize ⟨"constructor", jobj [("metric", .str "x")]⟩ =
      .ok { client_id := "constructor", metric := none, amount := none,
            timestamp := none,
            normalizedHash := ("constructor", none, none) } := by
  with_unfolding_all decide

/-! ## Event Processor (backend/services/eventProcessor.js) and the
RawEvent / NormalizedEvent schemas (backend/models/Event.js) -/

/-- The status enumeration of the rawEventSchema. -/
inductive RawStatus where
  | pending
  | processing
  | normalized
  | failed
  | duplicate
deriving DecidableEq

/-- The raw-content fingerprint: the code hashes JSON.stringify of the
two-field object holding source and payload, an injective,
insertion-order-preserving encoding of this ordered pair. -/
abbrev RawContentHash := String × JSValue

/-- A stored RawEvent document.  Identifiers stand for MongoDB object
ids; receivedAt and the automatic timestamps carry no information any
claim depends on and are omitted. -/
structure RawEvent where
  id : Nat
  source : String
  payload : JSValue
  contentHash : RawContentHash
  status : RawStatus
  errorMessage : Option String
deriving DecidableEq

/-- A stored NormalizedEvent document.  The normalizedHash column
carries a unique index. -/
structure NormalizedEvent where
  id : Nat
  client_id : String
  metric : Option String
  amount : Option ℚ
  timestamp : Option UTCDate
  rawEventId : Nat
  normalizedHash : NormalizedHash
deriving DecidableEq

/-- The document store, with a counter supplying fresh object ids.
Documents are listed in insertion order; findOne without a sort
returns the first match in that order. -/
structure Store where
  rawEvents : List RawEvent
  normEvents : List NormalizedEvent
  nextId : Nat
deriving DecidableEq

def emptyStore : Store := ⟨[], [], 0⟩

namespace EventProcessor

/-- EventProcessor generateRawHash: the SHA-256 digest of
JSON.stringify over the object holding source and payload, modelled by
the serialized ordered content itself (see the header comment). -/
def generateRawHash (rawEventData : EventInput) : RawContentHash :=
  (rawEventData.source, rawEventData.payload)

/-- The per-document effect of RawEvent.findByIdAndUpdate: the
document with the given id receives the new status and, when a
message is supplied, the new errorMessage; every other document is
untouched. -/
def applyStatusUpdate (id : Nat) (st : RawStatus) (msg : Option String)
    (r : RawEvent) : RawEvent :=
  if r.id = id then
    { r with status := st
             errorMessage := match msg with
                             | some m => some m
                             | none => r.errorMessage }
  else r

/-- RawEvent.findByIdAndUpdate setting the status and, when a message
is supplied, the errorMessage field. -/
def updateRawEvent (s : Store) (id : Nat) (st : RawStatus)
    (msg : Option String) : Store :=
  { s with rawEvents := s.rawEvents.map (applyStatusUpdate id st msg) }

/-- The filter of the step 2 query: contentHash equality together
with status in the set holding normalized and processing. -/
def hashStatusFilter (h : RawContentHash) (r : RawEvent) : Bool :=
  r.contentHash == h &&
  (r.status == RawStatus.normalized || r.status == RawStatus.processing)

/-- The filter of the upsert and recovery queries: contentHash
equality alone. -/
def hashFilter (h : RawContentHash) (r : RawEvent) : Bool :=
  r.contentHash == h

/-- The filter of the step 5 query: normalizedHash equality. -/
def normHashFilter (h : NormalizedHash) (n : NormalizedEvent) : Bool :=
  n.normalizedHash == h

/-- The catch-block recovery write: after the transaction was aborted,
best-effort locate the RawEvent by content hash in the committed store
and mark it failed with the error message.  This read runs outside the
rolled-back session, so it only sees committed documents. -/
def recoverRawEventStatus (committed : Store) (h : RawContentHash)
    (msg : String) : Store :=
  match committed.rawEvents.find? (hashFilter h) with
  | some r => updateRawEvent committed r.id .failed (some msg)
  | none => committed

/-- The processing result objects, by their reason code: success,
duplicate (raw level carries no normalized id, normalized level
carries one), validation_error and processing_error. -/
inductive Outcome where
  | success (rawEventId : Nat) (normalizedEventId : Nat)
      (normalizedData : NormalizedRecord)
  | duplicate (eventId : Nat) (normalizedEventId : Option Nat)
  | validationError (msg : String) (eventId : Nat)
  | processingError (msg : String)
deriving DecidableEq

/-- Step 3: RawEvent.findOneAndUpdate keyed on contentHash with
upsert and setOnInsert, inside the session: when a document with this
hash exists it is returned untouched (first writer wins on content);
otherwise a fresh document with status processing is inserted. -/
def upsertRawEvent (store : Store) (rawEventData : EventInput)
    (rawContentHash : RawContentHash) : RawEvent × Store :=
  match store.rawEvents.find? (hashFilter rawContentHash) with
  | some r => (r, store)
  | none =>
    let r : RawEvent :=
      { id := store.nextId, source := rawEventData.source,
        payload := rawEventData.payload, contentHash := rawContentHash,
        status := .processing, errorMessage := none }
    (r, { store with rawEvents := store.rawEvents ++ [r],
                     nextId := store.nextId + 1 })

/-- Steps 3 to 9 of processEvent, entered when step 2 did not find an
already normalized RawEvent for this content: atomic get-or-create of
the RawEvent, normalization, normalized-level duplicate check, the
fault-injection hook, and the final insert and commit.  The store
argument is the committed state; session states are local values,
adopted on commit (the branches that return an updated store) and
discarded on abort (the simulated-failure branch, which returns a
store derived from the committed state only). -/
def processEventSteps (store : Store) (rawEventData : EventInput)
    (simulateFailure : Bool) (rawContentHash : RawContentHash) :
    Outcome × Store :=
  let upserted := upsertRawEvent store rawEventData rawContentHash
  let rawEvent := upserted.1
  let session := upserted.2
  -- Step 4: normalize; on validation error mark failed and commit.
  match Normalizer.normalize rawEventData with
  | .error msg =>
    (.validationError msg rawEvent.id,
     updateRawEvent session rawEvent.id .failed (some msg))
  | .ok normalized =>
    -- Step 5: normalized-level duplicate check inside the session.
    match session.normEvents.find? (normHashFilter normalized.normalizedHash) with
    | some existingNormalized =>
      (.duplicate rawEvent.id (some existingNormalized.id),
       updateRawEvent session rawEvent.id .duplicate none)
    | none =>
      -- Step 6: the injected fault throws; the catch block aborts the
      -- transaction and performs the best-effort recovery write
      -- against the committed store.
      if simulateFailure then
        (.processingError "Simulated database failure",
         recoverRawEventStatus store rawContentHash
           "Simulated database failure")
      else
        -- Steps 7 to 9: insert the NormalizedEvent, mark the RawEvent
        -- normalized, commit.
        let ne : NormalizedEvent :=
          { id := session.nextId, client_id := normalized.client_id,
            metric := normalized.metric, amount := normalized.amount,
            timestamp := normalized.timestamp, rawEventId := rawEvent.id,
            normalizedHash := normalized.normalizedHash }
        let session2 : Store :=
          { session with normEvents := session.normEvents ++ [ne],
                         nextId := session.nextId + 1 }
        (.success rawEvent.id ne.id normalized,
         updateRawEvent session2 rawEvent.id .normalized none)

/-- EventProcessor.processEvent.  Step 1 computes the content hash;
step 2 looks for an existing RawEvent with this hash whose status is
normalized or processing and, when one with status normalized exists,
aborts the transaction and reports the raw-level duplicate; otherwise
processing continues with steps 3 to 9. -/
def processEvent (store : Store) (rawEventData : EventInput)
    (simulateFailure : Bool) : Outcome × Store :=
  let rawContentHash := generateRawHash rawEventData
  match store.rawEvents.find? (hashStatusFilter rawContentHash) with
  | some existingRaw =>
    if existingRaw.status == RawStatus.normalized then
      (.duplicate existingRaw.id none, store)
    else
      processEventSteps store rawEventData simulateFailure rawContentHash
  | none => processEventSteps store rawEventData simulateFailure rawContentHash

/-- The message of the storage-layer unique-constraint failure raised
when the NormalizedEvent insert conflicts with a concurrently
committed record carrying the same normalizedHash. -/
def uniqueViolationMessage : String := "E11000 duplicate key error"

/-- processEvent in the presence of one concurrent writer, the race of
section 5 of the specification: concurrent holds a NormalizedEvent
committed by another transaction after this unit of work took its
snapshot.  Snapshot isolation hides that record from the step 5 read,
but the unique index on normalizedHash still rejects the step 7 insert
with a UniqueConstraintViolation.  The code routes that exception to
its single generic catch block, which aborts, runs the best-effort
recovery write and reports processing_error; no branch inspects the
exception type.  Every other step is verbatim processEvent. -/
def processEventStepsWithConcurrentInsert (store : Store)
    (rawEventData : EventInput) (simulateFailure : Bool)
    (rawContentHash : RawContentHash) (concurrent : Option NormalizedEvent) :
    Outcome × Store :=
  let upserted := upsertRawEvent store rawEventData rawContentHash
  let rawEvent := upserted.1
  let session := upserted.2
  match Normalizer.normalize rawEventData with
  | .error msg =>
    (.validationError msg rawEvent.id,
     updateRawEvent session rawEvent.id .failed (some msg))
  | .ok normalized =>
    match session.normEvents.find? (normHashFilter normalized.normalizedHash) with
    | some existingNormalized =>
      (.duplicate rawEvent.id (some existingNormalized.id),
       updateRawEvent session rawEvent.id .duplicate none)
    | none =>
      if simulateFailure then
        (.processingError "Simulated database failure",
         recoverRawEventStatus store rawContentHash
           "Simulated database failure")
      else if (match concurrent with
               | some cn => cn.normalizedHash == normalized.normalizedHash
               | none => false) then
        -- normalizedEvent.save rejected by the unique index; the
        -- generic catch block treats it like any other failure.
        (.processingError uniqueViolationMessage,
         recoverRawEventStatus store rawContentHash uniqueViolationMessage)
      else
        let ne : NormalizedEvent :=
          { id := session.nextId, client_id := normalized.client_id,
            metric := normalized.metric, amount := normalized.amount,
            timestamp := normalized.timestamp, rawEventId := rawEvent.id,
            normalizedHash := normalized.normalizedHash }
        let session2 : Store :=
          { session with normEvents := session.normEvents ++ [ne],
                         nextId := session.nextId + 1 }
        (.success rawEvent.id ne.id normalized,
         updateRawEvent session2 rawEvent.id .normalized none)

/-- Top level of the race variant, identical to processEvent. -/
def processEventWithConcurrentInsert (store : Store)
    (rawEventData : EventInput) (simulateFailure : Bool)
    (concurrent : Option NormalizedEvent) : Outcome × Store :=
  let rawContentHash := generateRawHash rawEventData
  match store.rawEvents.find? (hashStatusFilter rawContentHash) with
  | some existingRaw =>
    if existingRaw.status == RawStatus.normalized then
      (.duplicate existingRaw.id none, store)
    else
      processEventStepsWithConcurrentInsert store rawEventData simulateFailure
        rawContentHash concurrent
  | none =>
    processEventStepsWithConcurrentInsert store rawEventData simulateFailure
      rawContentHash concurrent

end EventProcessor

/-- A sequence of ingestion calls applied to the empty store: the
reachable states of the processor. -/
def runEvents (calls : List (EventInput × Bool)) : Store :=
  calls.foldl (fun s c => (EventProcessor.processEvent s c.1 c.2).2) emptyStore

example :
    (EventProcessor.processEvent emptyStore
      ⟨"A", jobj [("metric", .str "x"), ("amount", .str "10")]⟩ false).1 =
    .success 0 1 { client_id := "A", metric := some "x", amount := some 10,
                   timestamp := none,
                   normalizedHash := ("A", some "x", some 10) } := by
  with_unfolding_all decide

example :
    (EventProcessor.processEvent emptyStore
      ⟨"A", jobj [("metric", .str "x"), ("amount", .str "10")]⟩ true) =
    (.processingError "Simulated database failure", emptyStore) := by
  with_unfolding_all decide

/-! ## Aggregator (backend/routes/aggregates.js) -/

namespace Aggregates

/-- Ordering of stored timestamps, used by the range filter. -/
def dateLE (a b : UTCDate) : Bool :=
  a.year < b.year ||
  (a.year = b.year &&
    (a.month < b.month || (a.month = b.month && a.day ≤ b.day)))

/-- The optional filters of GET /api/aggregates: client_id equality
and a timestamp range. -/
structure AggregateQuery where
  client_id : Option String
  startDate : Option UTCDate
  endDate : Option UTCDate

/-- The match stage: client equality when requested; a timestamp range
comparison never matches a document whose timestamp field is null. -/
def matchesQuery (q : AggregateQuery) (e : NormalizedEvent) : Bool :=
  (match q.client_id with
   | some c => e.client_id == c
   | none => true) &&
  (match q.startDate, q.endDate with
   | none, none => true
   | _, _ =>
     match e.timestamp with
     | none => false
     | some t =>
       (match q.startDate with
        | some sd => dateLE sd t
        | none => true) &&
       (match q.endDate with
        | some ed => dateLE t ed
        | none => true))

/-- MongoDB $round rounds half to even; the stage rounds to two
decimal places. -/
def roundHalfToEven (q : ℚ) : ℤ :=
  let f := ⌊q⌋
  let frac := q - f
  if frac < 1 / 2 then f
  else if 1 / 2 < frac then f + 1
  else if f % 2 = 0 then f else f + 1

def mongoRound2 (q : ℚ) : ℚ := (roundHalfToEven (q * 100) : ℚ) / 100

/-- The per-document value every accumulator consumes:
$ifNull of amount and 0. -/
def amountOrZero (e : NormalizedEvent) : ℚ :=
  match e.amount with
  | some a => a
  | none => 0

def sumAmounts (evs : List NormalizedEvent) : ℚ :=
  evs.foldl (fun a e => a + amountOrZero e) 0

/-- $min over the per-document values of a non-empty group. -/
def minAmounts : List NormalizedEvent → ℚ
  | [] => 0
  | e :: rest => rest.foldl (fun a x => min a (amountOrZero x)) (amountOrZero e)

/-- $max over the per-document values of a non-empty group. -/
def maxAmounts : List NormalizedEvent → ℚ
  | [] => 0
  | e :: rest => rest.foldl (fun a x => max a (amountOrZero x)) (amountOrZero e)

/-- $addToSet of the metric field, keeping first appearances. -/
def addToSetMetrics (evs : List NormalizedEvent) : List (Option String) :=
  evs.foldl (fun acc e => if e.metric ∈ acc then acc else acc ++ [e.metric]) []

/-- One output document of the $group / $project stages of
GET /api/aggregates: the group key (null for the ungrouped mode),
the rounded total and average, the count, the unrounded minimum and
maximum, and the set of metric values seen. -/
structure AggregateRow where
  groupId : Option String
  totalAmount : ℚ
  averageAmount : ℚ
  count : Nat
  minAmount : ℚ
  maxAmount : ℚ
  uniqueMetrics : List (Option String)
deriving DecidableEq

/-- The accumulators of one group: count, $sum, $avg (the mean of the
per-document values, that is sum over count), $min, $max and
$addToSet, followed by the $project stage that rounds the total and
the average to two decimals. -/
def aggregateGroup (gid : Option String) (evs : List NormalizedEvent) :
    AggregateRow :=
  let total := sumAmounts evs
  { groupId := gid
    totalAmount := mongoRound2 total
    averageAmount := mongoRound2 (total / evs.length)
    count := evs.length
    minAmount := minAmounts evs
    maxAmount := maxAmounts evs
    uniqueMetrics := addToSetMetrics evs }

/-- Group keys in order of first appearance. -/
def groupKeys (evs : List NormalizedEvent) : List String :=
  evs.foldl (fun acc e => if e.client_id ∈ acc then acc else acc ++ [e.client_id]) []

/-- GET /api/aggregates: match, then group either by client_id (when
groupBy=client) or into the single null-keyed group; $group emits no
document at all when no document matches. -/
def aggregatesEndpoint (q : AggregateQuery) (groupByClient : Bool)
    (evs : List NormalizedEvent) : List AggregateRow :=
  let matched := evs.filter (matchesQuery q)
  if groupByClient then
    (groupKeys matched).map fun c =>
      aggregateGroup (some c) (matched.filter (fun e => e.client_id == c))
  else
    match matched with
    | [] => []
    | _ => [aggregateGroup none matched]

/-- One output document of GET /api/aggregates/by-client. -/
structure ClientAggregateRow where
  client_id : String
  totalAmount : ℚ
  averageAmount : ℚ
  count : Nat
  metrics : List (Option String)
deriving DecidableEq

/-- Insert into a list ordered by descending totalAmount. -/
def insertByTotalDesc (r : ClientAggregateRow) :
    List ClientAggregateRow → List ClientAggregateRow
  | [] => [r]
  | x :: xs =>
    if x.totalAmount < r.totalAmount then r :: x :: xs
    else x :: insertByTotalDesc r xs

/-- $sort by totalAmount descending. -/
def sortByTotalDesc (rs : List ClientAggregateRow) : List ClientAggregateRow :=
  rs.foldl (fun acc r => insertByTotalDesc r acc) []

/-- GET /api/aggregates/by-client: match on the optional timestamp
range only, group by client_id with the same accumulators minus the
range accumulators, round, and sort by descending total. -/
def aggregatesByClient (startDate endDate : Option UTCDate)
    (evs : List NormalizedEvent) : List ClientAggregateRow :=
  let q : AggregateQuery := ⟨none, startDate, endDate⟩
  let matched := evs.filter (matchesQuery q)
  sortByTotalDesc ((groupKeys matched).map fun c =>
    let grp := matched.filter (fun e => e.client_id == c)
    let total := sumAmounts grp
    { client_id := c
      totalAmount := mongoRound2 total
      averageAmount := mongoRound2 (total / grp.length)
      count := grp.length
      metrics := addToSetMetrics grp })

end Aggregates

/-- The three NormalizedEvents of the aggregation-correctness fixture:
client A with amounts 10 and 30, client B with amount 5. -/
def demoNormalizedEvents : List NormalizedEvent :=
  [ { id := 0, client_id := "A", metric := none, amount := some 10,
      timestamp := none, rawEventId := 0, normalizedHash := ("A", none, some 10) },
    { id := 1, client_id := "A", metric := none, amount := some 30,
      timestamp := none, rawEventId := 1, normalizedHash := ("A", none, some 30) },
    { id := 2, client_id := "B", metric := none, amount := some 5,
      timestamp := none, rawEventId := 2, normalizedHash := ("B", none, some 5) } ]

example :
    Aggregates.aggregatesEndpoint ⟨none, none, none⟩ true demoNormalizedEvents =
      [ { groupId := some "A", totalAmount := 40, averageAmount := 20,
          count := 2, minAmount := 10, maxAmount := 30, uniqueMetrics := [none] },
        { groupId := some "B", totalAmount := 5, averageAmount := 5,
          count := 1, minAmount := 5, maxAmount := 5, uniqueMetrics := [none] } ] := by
  with_unfolding_all decide

example :
    Aggregates.aggregatesEndpoint ⟨none, none, none⟩ false demoNormalizedEvents =
      [ { groupId := none, totalAmount := 45, averageAmount := 15,
          count := 3, minAmount := 5, maxAmount := 30, uniqueMetrics := [none] } ] := by
  with_unfolding_all decide

example :
    Aggregates.aggregatesByClient none none demoNormalizedEvents =
      [ { client_id := "A", totalAmount := 40, averageAmount := 20,
          count := 2, metrics := [none] },
        { client_id := "B", totalAmount := 5, averageAmount := 5,
          count := 1, metrics := [none] } ] := by
  with_unfolding_all decide

/-! ## Well-formedness of reachable stores and basic lemmas -/

namespace EventProcessor

theorem hashStatusFilter_iff (h : RawContentHash) (r : RawEvent) :
    hashStatusFilter h r = true ↔
      r.contentHash = h ∧
        (r.status = RawStatus.normalized ∨ r.status = RawStatus.processing) := by
  simp [hashStatusFilter]

theorem hashFilter_iff (h : RawContentHash) (r : RawEvent) :
    hashFilter h r = true ↔ r.contentHash = h := by
  simp [hashFilter]

theorem normHashFilter_iff (h : NormalizedHash) (n : NormalizedEvent) :
    normHashFilter h n = true ↔ n.normalizedHash = h := by
  simp [normHashFilter]

theorem applyStatusUpdate_id (id : Nat) (st : RawStatus) (msg : Option String)
    (r : RawEvent) : (applyStatusUpdate id st msg r).id = r.id := by
  unfold applyStatusUpdate; split <;> rfl

theorem applyStatusUpdate_contentHash (id : Nat) (st : RawStatus)
    (msg : Option String) (r : RawEvent) :
    (applyStatusUpdate id st msg r).contentHash = r.contentHash := by
  unfold applyStatusUpdate; split <;> rfl

theorem applyStatusUpdate_source (id : Nat) (st : RawStatus)
    (msg : Option String) (r : RawEvent) :
    (applyStatusUpdate id st msg r).source = r.source := by
  unfold applyStatusUpdate; split <;> rfl

theorem applyStatusUpdate_payload (id : Nat) (st : RawStatus)
    (msg : Option String) (r : RawEvent) :
    (applyStatusUpdate id st msg r).payload = r.payload := by
  unfold applyStatusUpdate; split <;> rfl

theorem applyStatusUpdate_of_ne (id : Nat) (st : RawStatus)
    (msg : Option String) (r : RawEvent) (hne : r.id ≠ id) :
    applyStatusUpdate id st msg r = r := by
  unfold applyStatusUpdate; simp [hne]

theorem applyStatusUpdate_status_of_eq (id : Nat) (st : RawStatus)
    (msg : Option String) (r : RawEvent) (heq : r.id = id) :
    (applyStatusUpdate id st msg r).status = st := by
  unfold applyStatusUpdate; simp [heq]

theorem updateRawEvent_rawEvents (s : Store) (id : Nat) (st : RawStatus)
    (msg : Option String) :
    (updateRawEvent s id st msg).rawEvents =
      s.rawEvents.map (applyStatusUpdate id st msg) := rfl

theorem updateRawEvent_normEvents (s : Store) (id : Nat) (st : RawStatus)
    (msg : Option String) :
    (updateRawEvent s id st msg).normEvents = s.normEvents := rfl

theorem updateRawEvent_nextId (s : Store) (id : Nat) (st : RawStatus)
    (msg : Option String) :
    (updateRawEvent s id st msg).nextId = s.nextId := rfl

theorem upsertRawEvent_found (s : Store) (i : EventInput) (h : RawContentHash)
    (r : RawEvent) (hf : s.rawEvents.find? (hashFilter h) = some r) :
    upsertRawEvent s i h = (r, s) := by
  unfold upsertRawEvent; rw [hf]

theorem upsertRawEvent_new (s : Store) (i : EventInput) (h : RawContentHash)
    (hf : s.rawEvents.find? (hashFilter h) = none) :
    upsertRawEvent s i h =
      (⟨s.nextId, i.source, i.payload, h, .processing, none⟩,
       { s with
         rawEvents := s.rawEvents ++
           [⟨s.nextId, i.source, i.payload, h, .processing, none⟩],
         nextId := s.nextId + 1 }) := by
  unfold upsertRawEvent; rw [hf]

/-- The well-formedness invariant of every store reachable through
processEvent from the empty store.  Statuses of committed RawEvents
are always final statuses: the transient processing status exists only
inside an uncommitted session (and pending only as an unused schema
default).  A failed document records an input the normalizer rejects;
a duplicate document records an input whose normalized content is
already present. -/
structure Inv (s : Store) : Prop where
  idsNodup : (s.rawEvents.map RawEvent.id).Nodup
  idsLt : ∀ r ∈ s.rawEvents, r.id < s.nextId
  statuses : ∀ r ∈ s.rawEvents,
    r.status = RawStatus.failed ∨ r.status = RawStatus.duplicate ∨
      r.status = RawStatus.normalized
  hashFaithful : ∀ r ∈ s.rawEvents, r.contentHash = (r.source, r.payload)
  failedSound : ∀ r ∈ s.rawEvents, r.status = RawStatus.failed →
    ∃ m, Normalizer.normalize ⟨r.source, r.payload⟩ = .error m ∧
      r.errorMessage = some m
  dupSound : ∀ r ∈ s.rawEvents, r.status = RawStatus.duplicate →
    ∃ nr, Normalizer.normalize ⟨r.source, r.payload⟩ = .ok nr ∧
      ∃ n ∈ s.normEvents, n.normalizedHash = nr.normalizedHash

theorem Inv_emptyStore : Inv emptyStore := by
  constructor <;> simp [emptyStore]

/-- Between a store and its successor: every RawEvent survives with
the same identity, content and status (nothing is deleted, no
committed status ever changes). -/
def rawPreserved (s s2 : Store) : Prop :=
  ∀ r ∈ s.rawEvents, ∃ r2 ∈ s2.rawEvents,
    r2.id = r.id ∧ r2.status = r.status ∧ r2.contentHash = r.contentHash ∧
    r2.source = r.source ∧ r2.payload = r.payload

theorem rawPreserved_refl (s : Store) : rawPreserved s s := by
  intro r hr; exact ⟨r, hr, rfl, rfl, rfl, rfl, rfl⟩

end EventProcessor

namespace EventProcessor

/-- Members of the raw hash pair determine source and payload: the
digest is an injective encoding of the serialized pair. -/
theorem sourcePayload_of_hash (i : EventInput) (r : RawEvent)
    (hfaith : r.contentHash = (r.source, r.payload))
    (hh : r.contentHash = generateRawHash i) :
    r.source = i.source ∧ r.payload = i.payload := by
  unfold generateRawHash at hh
  rw [hfaith] at hh
  exact ⟨congrArg Prod.fst hh, congrArg Prod.snd hh⟩

theorem applyStatusUpdate_self (id : Nat) (st : RawStatus) (msg : Option String)
    (r : RawEvent) (hst : r.status = st)
    (hmsg : ∀ m, msg = some m → r.errorMessage = some m) :
    applyStatusUpdate id st msg r = r := by
  unfold applyStatusUpdate
  split
  · cases msg with
    | none => cases r; simp_all
    | some m => cases r; simp_all [hmsg m rfl]
  · rfl

/-- When the targeted document already carries the written values, the
findByIdAndUpdate write leaves the store unchanged. -/
theorem updateRawEvent_noop (s : Store) (r0 : RawEvent)
    (hmem : r0 ∈ s.rawEvents)
    (hnodup : (s.rawEvents.map RawEvent.id).Nodup)
    (st : RawStatus) (msg : Option String) (hst : r0.status = st)
    (hmsg : ∀ m, msg = some m → r0.errorMessage = some m) :
    updateRawEvent s r0.id st msg = s := by
  unfold updateRawEvent
  have hmap : s.rawEvents.map (applyStatusUpdate r0.id st msg) = s.rawEvents := by
    have : ∀ r ∈ s.rawEvents, applyStatusUpdate r0.id st msg r = r := by
      intro r hr
      by_cases hid : r.id = r0.id
      · have hre : r = r0 := List.inj_on_of_nodup_map hnodup hr hmem hid
        subst hre
        exact applyStatusUpdate_self _ _ _ _ hst hmsg
      · exact applyStatusUpdate_of_ne _ _ _ _ hid
    calc s.rawEvents.map (applyStatusUpdate r0.id st msg)
        = s.rawEvents.map id := List.map_congr_left this
      _ = s.rawEvents := List.map_id _
  rw [hmap]

/-- Updating a just-inserted document touches no pre-existing one. -/
theorem map_applyStatusUpdate_fresh (s : Store)
    (hlt : ∀ r ∈ s.rawEvents, r.id < s.nextId)
    (st : RawStatus) (msg : Option String) (rnew : RawEvent) :
    (s.rawEvents ++ [rnew]).map (applyStatusUpdate s.nextId st msg) =
      s.rawEvents ++ [applyStatusUpdate s.nextId st msg rnew] := by
  rw [List.map_append]
  congr 1
  calc s.rawEvents.map (applyStatusUpdate s.nextId st msg)
      = s.rawEvents.map id := by
        apply List.map_congr_left
        intro r hr
        exact applyStatusUpdate_of_ne _ _ _ _ (Nat.ne_of_lt (hlt r hr))
    _ = s.rawEvents := List.map_id _

/-- Assembling the invariant for a store that grew by one RawEvent
with a fresh id (and possibly one NormalizedEvent). -/
theorem Inv_snoc (s : Store) (hInv : Inv s) (r : RawEvent)
    (normExt : List NormalizedEvent) (k : Nat)
    (hid : r.id = s.nextId) (hk : s.nextId < k)
    (hst : r.status = RawStatus.failed ∨ r.status = RawStatus.duplicate ∨
      r.status = RawStatus.normalized)
    (hfaith : r.contentHash = (r.source, r.payload))
    (hfailed : r.status = RawStatus.failed →
      ∃ m, Normalizer.normalize ⟨r.source, r.payload⟩ = .error m ∧
        r.errorMessage = some m)
    (hdup : r.status = RawStatus.duplicate →
      ∃ nr, Normalizer.normalize ⟨r.source, r.payload⟩ = .ok nr ∧
        ∃ n ∈ s.normEvents ++ normExt, n.normalizedHash = nr.normalizedHash) :
    Inv ⟨s.rawEvents ++ [r], s.normEvents ++ normExt, k⟩ := by
  constructor
  · rw [List.map_append]
    rw [List.nodup_append]
    refine ⟨hInv.idsNodup, by simp, ?_⟩
    intro x hx
    simp only [List.map_cons, List.map_nil, List.mem_singleton]
    obtain ⟨rx, hrx, hrxid⟩ := List.mem_map.mp hx
    intro hxe
    rw [hxe] at hrxid
    have := hInv.idsLt rx hrx
    omega
  · intro rx hrx
    rcases List.mem_append.mp hrx with hin | hin
    · exact Nat.lt_trans (hInv.idsLt rx hin) hk
    · rw [List.mem_singleton.mp hin, hid]; exact hk
  · intro rx hrx
    rcases List.mem_append.mp hrx with hin | hin
    · exact hInv.statuses rx hin
    · rw [List.mem_singleton.mp hin]; exact hst
  · intro rx hrx
    rcases List.mem_append.mp hrx with hin | hin
    · exact hInv.hashFaithful rx hin
    · rw [List.mem_singleton.mp hin]; exact hfaith
  · intro rx hrx hxst
    rcases List.mem_append.mp hrx with hin | hin
    · exact hInv.failedSound rx hin hxst
    · rw [List.mem_singleton.mp hin] at hxst ⊢; exact hfailed hxst
  · intro rx hrx hxst
    rcases List.mem_append.mp hrx with hin | hin
    · obtain ⟨nr, hnr, n, hn, hnh⟩ := hInv.dupSound rx hin hxst
      exact ⟨nr, hnr, n, List.mem_append_left _ hn, hnh⟩
    · rw [List.mem_singleton.mp hin] at hxst ⊢; exact hdup hxst

theorem rawPreserved_snoc (s : Store) (r : RawEvent)
    (normExt : List NormalizedEvent) (k : Nat) :
    rawPreserved s ⟨s.rawEvents ++ [r], s.normEvents ++ normExt, k⟩ := by
  intro rx hrx
  exact ⟨rx, List.mem_append_left _ hrx, rfl, rfl, rfl, rfl, rfl⟩

end EventProcessor

namespace EventProcessor

/-- Steps 3 to 9 preserve the invariant and never delete or restatus a
committed RawEvent, provided no already normalized document carries
the content hash (the condition under which step 2 dispatches here). -/
theorem processEventSteps_preserves (s : Store) (i : EventInput) (sf : Bool)
    (hInv : Inv s)
    (hno : ∀ r ∈ s.rawEvents, r.contentHash = generateRawHash i →
      r.status ≠ RawStatus.normalized) :
    Inv (processEventSteps s i sf (generateRawHash i)).2 ∧
    rawPreserved s (processEventSteps s i sf (generateRawHash i)).2 := by
  cases hu : s.rawEvents.find? (hashFilter (generateRawHash i)) with
  | some r0 =>
    have hr0mem : r0 ∈ s.rawEvents := List.mem_of_find?_eq_some hu
    have hr0hash : r0.contentHash = generateRawHash i :=
      (hashFilter_iff _ _).mp (List.find?_some hu)
    have hsp := sourcePayload_of_hash i r0 (hInv.hashFaithful r0 hr0mem) hr0hash
    have hnorm_eq : Normalizer.normalize ⟨r0.source, r0.payload⟩ =
        Normalizer.normalize i := by rw [hsp.1, hsp.2]
    have hr0st : r0.status = RawStatus.failed ∨ r0.status = RawStatus.duplicate := by
      rcases hInv.statuses r0 hr0mem with h1 | h2 | h3
      · exact Or.inl h1
      · exact Or.inr h2
      · exact absurd h3 (hno r0 hr0mem hr0hash)
    have hup := upsertRawEvent_found s i (generateRawHash i) r0 hu
    cases hn : Normalizer.normalize i with
    | error msg =>
      have hfail : r0.status = RawStatus.failed := by
        rcases hr0st with h1 | h2
        · exact h1
        · obtain ⟨nr, hnr, _⟩ := hInv.dupSound r0 hr0mem h2
          rw [hnorm_eq, hn] at hnr
          cases hnr
      obtain ⟨m, hm, hmsg⟩ := hInv.failedSound r0 hr0mem hfail
      rw [hnorm_eq, hn] at hm
      injection hm with hmeq
      have hresult : processEventSteps s i sf (generateRawHash i) =
          (.validationError msg r0.id, s) := by
        simp only [processEventSteps, hup, hn]
        rw [updateRawEvent_noop s r0 hr0mem hInv.idsNodup _ _ hfail ?_]
        intro m2 hm2
        injection hm2 with hm2e
        rw [hmsg]
        exact congrArg some (hmeq.symm.trans hm2e)
      rw [hresult]
      exact ⟨hInv, rawPreserved_refl s⟩
    | ok n =>
      cases hfind5 : s.normEvents.find? (normHashFilter n.normalizedHash) with
      | some en =>
        have hdup : r0.status = RawStatus.duplicate := by
          rcases hr0st with h1 | h2
          · obtain ⟨m, hm, _⟩ := hInv.failedSound r0 hr0mem h1
            rw [hnorm_eq, hn] at hm
            cases hm
          · exact h2
        have hresult : processEventSteps s i sf (generateRawHash i) =
            (.duplicate r0.id (some en.id), s) := by
          simp only [processEventSteps, hup, hn, hfind5]
          rw [updateRawEvent_noop s r0 hr0mem hInv.idsNodup _ _ hdup ?_]
          intro m2 hm2
          cases hm2
        rw [hresult]
        exact ⟨hInv, rawPreserved_refl s⟩
      | none =>
        exfalso
        rcases hr0st with h1 | h2
        · obtain ⟨m, hm, _⟩ := hInv.failedSound r0 hr0mem h1
          rw [hnorm_eq, hn] at hm
          cases hm
        · obtain ⟨nr, hnr, nrm, hnrm, hnrmh⟩ := hInv.dupSound r0 hr0mem h2
          rw [hnorm_eq, hn] at hnr
          injection hnr with hnre
          have hnone := List.find?_eq_none.mp hfind5 nrm hnrm
          exact hnone ((normHashFilter_iff _ _).mpr (by rw [hnrmh, hnre]))
  | none =>
    have hfresh : ∀ r ∈ s.rawEvents, r.contentHash ≠ generateRawHash i := by
      intro r hr
      have := List.find?_eq_none.mp hu r hr
      intro hcontra
      exact this ((hashFilter_iff _ _).mpr hcontra)
    have hup := upsertRawEvent_new s i (generateRawHash i) hu
    cases hn : Normalizer.normalize i with
    | error msg =>
      have hresult : processEventSteps s i sf (generateRawHash i) =
          (.validationError msg s.nextId,
           ⟨s.rawEvents ++
              [⟨s.nextId, i.source, i.payload, generateRawHash i,
                .failed, some msg⟩],
            s.normEvents, s.nextId + 1⟩) := by
        simp only [processEventSteps, hup, hn]
        unfold updateRawEvent
        simp only []
        rw [map_applyStatusUpdate_fresh s hInv.idsLt]
        simp [applyStatusUpdate]
      rw [hresult]
      constructor
      · have := Inv_snoc s hInv
          ⟨s.nextId, i.source, i.payload, generateRawHash i, .failed, some msg⟩
          [] (s.nextId + 1) rfl (Nat.lt_succ_self _)
          (Or.inl rfl) rfl
          (fun _ => ⟨msg, hn, rfl⟩)
          (fun h => by cases h)
        simpa using this
      · have := rawPreserved_snoc s
          ⟨s.nextId, i.source, i.payload, generateRawHash i, .failed, some msg⟩
          [] (s.nextId + 1)
        simpa using this
    | ok n =>
      cases hfind5 : s.normEvents.find? (normHashFilter n.normalizedHash) with
      | some en =>
        have henmem : en ∈ s.normEvents := List.mem_of_find?_eq_some hfind5
        have henh : en.normalizedHash = n.normalizedHash :=
          (normHashFilter_iff _ _).mp (List.find?_some hfind5)
        have hresult : processEventSteps s i sf (generateRawHash i) =
            (.duplicate s.nextId (some en.id),
             ⟨s.rawEvents ++
                [⟨s.nextId, i.source, i.payload, generateRawHash i,
                  .duplicate, none⟩],
              s.normEvents, s.nextId + 1⟩) := by
          simp only [processEventSteps, hup, hn, hfind5]
          unfold updateRawEvent
          simp only []
          rw [map_applyStatusUpdate_fresh s hInv.idsLt]
          simp [applyStatusUpdate]
        rw [hresult]
        constructor
        · have := Inv_snoc s hInv
            ⟨s.nextId, i.source, i.payload, generateRawHash i, .duplicate, none⟩
            [] (s.nextId + 1) rfl (Nat.lt_succ_self _)
            (Or.inr (Or.inl rfl)) rfl
            (fun h => by cases h)
            (fun _ => ⟨n, hn, en, by simpa using henmem, henh⟩)
          simpa using this
        · have := rawPreserved_snoc s
            ⟨s.nextId, i.source, i.payload, generateRawHash i, .duplicate, none⟩
            [] (s.nextId + 1)
          simpa using this
      | none =>
        cases sf with
        | true =>
          have hresult : processEventSteps s i true (generateRawHash i) =
              (.processingError "Simulated database failure", s) := by
            simp only [processEventSteps, hup, hn, hfind5, if_true]
            simp only [recoverRawEventStatus, hu]
          rw [hresult]
          exact ⟨hInv, rawPreserved_refl s⟩
        | false =>
          have hresult : processEventSteps s i false (generateRawHash i) =
              (.success s.nextId (s.nextId + 1) n,
               ⟨s.rawEvents ++
                  [⟨s.nextId, i.source, i.payload, generateRawHash i,
                    .normalized, none⟩],
                s.normEvents ++
                  [⟨s.nextId + 1, n.client_id, n.metric, n.amount,
                    n.timestamp, s.nextId, n.normalizedHash⟩],
                s.nextId + 2⟩) := by
            simp only [processEventSteps, hup, hn, hfind5, if_false]
            unfold updateRawEvent
            simp only []
            rw [map_applyStatusUpdate_fresh s hInv.idsLt]
            simp [applyStatusUpdate]
          rw [hresult]
          constructor
          · exact Inv_snoc s hInv
              ⟨s.nextId, i.source, i.payload, generateRawHash i,
                .normalized, none⟩
              [⟨s.nextId + 1, n.client_id, n.metric, n.amount, n.timestamp,
                s.nextId, n.normalizedHash⟩]
              (s.nextId + 2) rfl (by omega)
              (Or.inr (Or.inr rfl)) rfl
              (fun h => by cases h)
              (fun h => by cases h)
          · exact rawPreserved_snoc s
              ⟨s.nextId, i.source, i.payload, generateRawHash i,
                .normalized, none⟩
              [⟨s.nextId + 1, n.client_id, n.metric, n.amount, n.timestamp,
                s.nextId, n.normalizedHash⟩]
              (s.nextId + 2)

end EventProcessor

namespace EventProcessor

/-- processEvent preserves the invariant and never deletes or
restatuses a committed RawEvent. -/
theorem processEvent_preserves (s : Store) (i : EventInput) (sf : Bool)
    (hInv : Inv s) :
    Inv (processEvent s i sf).2 ∧ rawPreserved s (processEvent s i sf).2 := by
  cases h2 : s.rawEvents.find? (hashStatusFilter (generateRawHash i)) with
  | some r =>
    have hmem := List.mem_of_find?_eq_some h2
    obtain ⟨hhash, hst⟩ := (hashStatusFilter_iff _ _).mp (List.find?_some h2)
    have hnorm : r.status = RawStatus.normalized := by
      rcases hst with h | h
      · exact h
      · rcases hInv.statuses r hmem with h1 | h1 | h1 <;> rw [h] at h1 <;> cases h1
    have hres : processEvent s i sf = (.duplicate r.id none, s) := by
      simp only [processEvent, h2, hnorm]
      simp
    rw [hres]
    exact ⟨hInv, rawPreserved_refl s⟩
  | none =>
    have hno : ∀ r ∈ s.rawEvents, r.contentHash = generateRawHash i →
        r.status ≠ RawStatus.normalized := by
      intro r hr hh hcontra
      exact List.find?_eq_none.mp h2 r hr
        ((hashStatusFilter_iff _ _).mpr ⟨hh, Or.inl hcontra⟩)
    have hres : processEvent s i sf =
        processEventSteps s i sf (generateRawHash i) := by
      simp only [processEvent, h2]
    rw [hres]
    exact processEventSteps_preserves s i sf hInv hno

theorem Inv_foldl (calls : List (EventInput × Bool)) (s : Store)
    (hInv : Inv s) :
    Inv (calls.foldl (fun st c => (processEvent st c.1 c.2).2) s) := by
  induction calls generalizing s with
  | nil => exact hInv
  | cons c rest ih => exact ih _ (processEvent_preserves s c.1 c.2 hInv).1

/-- Every store reachable through processEvent from the empty store
satisfies the invariant. -/
theorem Inv_runEvents (calls : List (EventInput × Bool)) :
    Inv (runEvents calls) := by
  unfold runEvents
  exact Inv_foldl calls emptyStore Inv_emptyStore

end EventProcessor

namespace EventProcessor

/-- On an input whose content hash has no committed RawEvent and whose
normalized content has no committed NormalizedEvent, the injected
fault makes processEvent roll back the session (undoing the RawEvent
upsert), find nothing during the best-effort recovery lookup, and
return processing_error with the committed store unchanged. -/
theorem processEvent_fresh_simfail (s : Store) (i : EventInput)
    (n : NormalizedRecord)
    (hok : Normalizer.normalize i = .ok n)
    (hfresh : ∀ r ∈ s.rawEvents, r.contentHash ≠ generateRawHash i)
    (hfreshN : ∀ m ∈ s.normEvents, m.normalizedHash ≠ n.normalizedHash) :
    processEvent s i true = (.processingError "Simulated database failure", s) := by
  have h2 : s.rawEvents.find? (hashStatusFilter (generateRawHash i)) = none := by
    rw [List.find?_eq_none]
    intro r hr hp
    exact hfresh r hr ((hashStatusFilter_iff _ _).mp hp).1
  have hu : s.rawEvents.find? (hashFilter (generateRawHash i)) = none := by
    rw [List.find?_eq_none]
    intro r hr hp
    exact hfresh r hr ((hashFilter_iff _ _).mp hp)
  have h5 : s.normEvents.find? (normHashFilter n.normalizedHash) = none := by
    rw [List.find?_eq_none]
    intro m hm hp
    exact hfreshN m hm ((normHashFilter_iff _ _).mp hp)
  simp only [processEvent, h2, processEventSteps, upsertRawEvent_new s i _ hu,
    hok, h5, if_true, recoverRawEventStatus, hu]

/-- On the same fresh input without the injected fault, processEvent
commits the new RawEvent with status normalized together with exactly
one new NormalizedEvent and reports success. -/
theorem processEvent_fresh_success (s : Store) (i : EventInput)
    (n : NormalizedRecord)
    (hok : Normalizer.normalize i = .ok n)
    (hids : ∀ r ∈ s.rawEvents, r.id < s.nextId)
    (hfresh : ∀ r ∈ s.rawEvents, r.contentHash ≠ generateRawHash i)
    (hfreshN : ∀ m ∈ s.normEvents, m.normalizedHash ≠ n.normalizedHash) :
    processEvent s i false =
      (.success s.nextId (s.nextId + 1) n,
       ⟨s.rawEvents ++
          [⟨s.nextId, i.source, i.payload, generateRawHash i,
            .normalized, none⟩],
        s.normEvents ++
          [⟨s.nextId + 1, n.client_id, n.metric, n.amount, n.timestamp,
            s.nextId, n.normalizedHash⟩],
        s.nextId + 2⟩) := by
  have h2 : s.rawEvents.find? (hashStatusFilter (generateRawHash i)) = none := by
    rw [List.find?_eq_none]
    intro r hr hp
    exact hfresh r hr ((hashStatusFilter_iff _ _).mp hp).1
  have hu : s.rawEvents.find? (hashFilter (generateRawHash i)) = none := by
    rw [List.find?_eq_none]
    intro r hr hp
    exact hfresh r hr ((hashFilter_iff _ _).mp hp)
  have h5 : s.normEvents.find? (normHashFilter n.normalizedHash) = none := by
    rw [List.find?_eq_none]
    intro m hm hp
    exact hfreshN m hm ((normHashFilter_iff _ _).mp hp)
  simp only [processEvent, h2, processEventSteps, upsertRawEvent_new s i _ hu,
    hok, h5, if_false]
  unfold updateRawEvent
  simp only []
  rw [map_applyStatusUpdate_fresh s hids]
  simp [applyStatusUpdate]

end EventProcessor

/-- The concrete event of the atomicity fixture of section 8:
source A with payload metric x, amount 10. -/
def inpC2 : EventInput := ⟨"A", jobj [("metric", .str "x"), ("amount", .str "10")]⟩

/-- Its normalized record. -/
def recC2 : NormalizedRecord :=
  { client_id := "A", metric := some "x", amount := some 10, timestamp := none,
    normalizedHash := ("A", some "x", some 10) }

/-- C10: if processEvent hits the injected fault on an input whose
contentHash has no pre-existing RawEvent (and whose normalized hash
has no pre-existing NormalizedEvent, which is what lets execution
reach the fault), the rollback undoes the RawEvent upsert, the
best-effort recovery lookup finds nothing, the call returns
processing_error and the store is left entirely unchanged: afterwards
no RawEvent with that contentHash exists at all. -/
theorem C10_rollback_leaves_store_unchanged (s : Store) (i : EventInput)
    (n : NormalizedRecord)
    (hok : Normalizer.normalize i = .ok n)
    (hfresh : ∀ r ∈ s.rawEvents, r.contentHash ≠ EventProcessor.generateRawHash i)
    (hfreshN : ∀ m ∈ s.normEvents, m.normalizedHash ≠ n.normalizedHash) :
    EventProcessor.processEvent s i true =
      (.processingError "Simulated database failure", s) ∧
    ∀ r ∈ (EventProcessor.processEvent s i true).2.rawEvents,
      r.contentHash ≠ EventProcessor.generateRawHash i := by
  have h := EventProcessor.processEvent_fresh_simfail s i n hok hfresh hfreshN
  refine ⟨h, ?_⟩
  rw [h]
  exact hfresh

theorem C10_witness :
    Normalizer.normalize inpC2 = .ok recC2 ∧
    (EventProcessor.processEvent emptyStore inpC2 true =
      (.processingError "Simulated database failure", emptyStore) ∧
     ∀ r ∈ (EventProcessor.processEvent emptyStore inpC2 true).2.rawEvents,
       r.contentHash ≠ EventProcessor.generateRawHash inpC2) :=
  ⟨by with_unfolding_all decide,
   C10_rollback_leaves_store_unchanged emptyStore inpC2 recC2
     (by with_unfolding_all decide)
     (by intro r hr; simp [emptyStore] at hr)
     (by intro m hm; simp [emptyStore] at hm)⟩

/-- C2 counterexample: on the never-seen input of the claim,
processEvent with simulateFailure leaves NO RawEvent for that content
hash at all (the upsert happened inside the rolled-back transaction),
so the claimed RawEvent with status failed does not exist. -/
theorem C2_counterexample :
    (EventProcessor.processEvent emptyStore inpC2 true).2.rawEvents = [] ∧
    ¬ ∃ r ∈ (EventProcessor.processEvent emptyStore inpC2 true).2.rawEvents,
        r.contentHash = EventProcessor.generateRawHash inpC2 ∧
        r.status = RawStatus.failed := by
  with_unfolding_all decide

/-- C2 (amended): for an input whose (source, payload) has never been
seen before, processEvent with simulateFailure commits no
NormalizedEvent and, because the transaction rollback also undoes the
RawEvent upsert and the recovery lookup then finds nothing, leaves no
RawEvent for that content hash at all (in particular none with status
failed); a subsequent call with identical (source, payload) and
simulateFailure off returns success and results in exactly one
NormalizedEvent with that normalized hash. -/
theorem C2_amended_failure_rolls_back_then_retry_succeeds (s : Store)
    (i : EventInput) (n : NormalizedRecord)
    (hok : Normalizer.normalize i = .ok n)
    (hids : ∀ r ∈ s.rawEvents, r.id < s.nextId)
    (hfresh : ∀ r ∈ s.rawEvents, r.contentHash ≠ EventProcessor.generateRawHash i)
    (hfreshN : ∀ m ∈ s.normEvents, m.normalizedHash ≠ n.normalizedHash) :
    EventProcessor.processEvent s i true =
      (.processingError "Simulated database failure", s) ∧
    (∀ r ∈ (EventProcessor.processEvent s i true).2.rawEvents,
      r.contentHash ≠ EventProcessor.generateRawHash i) ∧
    (EventProcessor.processEvent s i false).1 =
      .success s.nextId (s.nextId + 1) n ∧
    ((EventProcessor.processEvent s i false).2.normEvents.filter
      (fun m => m.normalizedHash == n.normalizedHash)).length = 1 := by
  have h1 := EventProcessor.processEvent_fresh_simfail s i n hok hfresh hfreshN
  have h2 := EventProcessor.processEvent_fresh_success s i n hok hids hfresh hfreshN
  refine ⟨h1, ?_, ?_, ?_⟩
  · rw [h1]; exact hfresh
  · rw [h2]
  · rw [h2]
    simp only [List.filter_append]
    have hold : s.normEvents.filter
        (fun m => m.normalizedHash == n.normalizedHash) = [] := by
      rw [List.filter_eq_nil_iff]
      intro m hm
      simp only [beq_iff_eq]
      exact hfreshN m hm
    rw [hold]
    simp

theorem C2_witness :
    Normalizer.normalize inpC2 = .ok recC2 ∧
    (EventProcessor.processEvent emptyStore inpC2 true =
       (.processingError "Simulated database failure", emptyStore) ∧
     (∀ r ∈ (EventProcessor.processEvent emptyStore inpC2 true).2.rawEvents,
       r.contentHash ≠ EventProcessor.generateRawHash inpC2) ∧
     (EventProcessor.processEvent emptyStore inpC2 false).1 =
       .success emptyStore.nextId (emptyStore.nextId + 1) recC2 ∧
     ((EventProcessor.processEvent emptyStore inpC2 false).2.normEvents.filter
       (fun m => m.normalizedHash == recC2.normalizedHash)).length = 1) :=
  ⟨by with_unfolding_all decide,
   C2_amended_failure_rolls_back_then_retry_succeeds emptyStore inpC2 recC2
     (by with_unfolding_all decide)
     (by intro r hr; simp [emptyStore] at hr)
     (by intro r hr; simp [emptyStore] at hr)
     (by intro m hm; simp [emptyStore] at hm)⟩

/-- C1: in a well-formed store, if a first call to processEvent
returns outcome success, then a second call with byte-identical
(source, payload) returns outcome duplicate with the store untouched,
and the store holds exactly one NormalizedEvent arising from that
input (one record with its normalized hash). -/
theorem C1_idempotent_reprocessing (s : Store) (i : EventInput)
    (hInv : EventProcessor.Inv s)
    (rid nid : Nat) (nd : NormalizedRecord) (s1 : Store)
    (h1 : EventProcessor.processEvent s i false = (.success rid nid nd, s1)) :
    (∃ eid, EventProcessor.processEvent s1 i false =
      (.duplicate eid none, s1)) ∧
    (s1.normEvents.filter
      (fun m => m.normalizedHash == nd.normalizedHash)).length = 1 := by
  cases h2find : s.rawEvents.find?
      (EventProcessor.hashStatusFilter (EventProcessor.generateRawHash i)) with
  | some r =>
    exfalso
    obtain ⟨hh, hst⟩ :=
      (EventProcessor.hashStatusFilter_iff _ _).mp (List.find?_some h2find)
    have hmem := List.mem_of_find?_eq_some h2find
    by_cases hnm : r.status = RawStatus.normalized
    · simp only [EventProcessor.processEvent, h2find, hnm] at h1
      simp at h1
    · have hproc : r.status = RawStatus.processing := by tauto
      rcases hInv.statuses r hmem with h' | h' | h' <;> rw [hproc] at h' <;> cases h'
  | none =>
    simp only [EventProcessor.processEvent, h2find] at h1
    cases hufind : s.rawEvents.find?
        (EventProcessor.hashFilter (EventProcessor.generateRawHash i)) with
    | some r0 =>
      exfalso
      have hr0mem := List.mem_of_find?_eq_some hufind
      have hr0hash : r0.contentHash = EventProcessor.generateRawHash i :=
        (EventProcessor.hashFilter_iff _ _).mp (List.find?_some hufind)
      have hnonorm := List.find?_eq_none.mp h2find r0 hr0mem
      have hr0st : r0.status = RawStatus.failed ∨
          r0.status = RawStatus.duplicate := by
        rcases hInv.statuses r0 hr0mem with h' | h' | h'
        · exact Or.inl h'
        · exact Or.inr h'
        · exact absurd ((EventProcessor.hashStatusFilter_iff _ _).mpr
            ⟨hr0hash, Or.inl h'⟩) hnonorm
      have hsp := EventProcessor.sourcePayload_of_hash i r0
        (hInv.hashFaithful r0 hr0mem) hr0hash
      have hnorm_eq : Normalizer.normalize ⟨r0.source, r0.payload⟩ =
          Normalizer.normalize i := by rw [hsp.1, hsp.2]
      have hup := EventProcessor.upsertRawEvent_found s i _ r0 hufind
      cases hn : Normalizer.normalize i with
      | error msg =>
        simp only [EventProcessor.processEventSteps, hup, hn] at h1
        simp at h1
      | ok n =>
        cases h5find : s.normEvents.find?
            (EventProcessor.normHashFilter n.normalizedHash) with
        | some en =>
          simp only [EventProcessor.processEventSteps, hup, hn, h5find] at h1
          simp at h1
        | none =>
          rcases hr0st with h' | h'
          · obtain ⟨m, hm, _⟩ := hInv.failedSound r0 hr0mem h'
            rw [hnorm_eq, hn] at hm
            cases hm
          · obtain ⟨nr, hnr, nrm, hnrm, hnrmh⟩ := hInv.dupSound r0 hr0mem h'
            rw [hnorm_eq, hn] at hnr
            injection hnr with hnre
            exact List.find?_eq_none.mp h5find nrm hnrm
              ((EventProcessor.normHashFilter_iff _ _).mpr (by rw [hnrmh, hnre]))
    | none =>
      have hfresh : ∀ r ∈ s.rawEvents,
          r.contentHash ≠ EventProcessor.generateRawHash i := fun r hr hc =>
        List.find?_eq_none.mp hufind r hr
          ((EventProcessor.hashFilter_iff _ _).mpr hc)
      cases hn : Normalizer.normalize i with
      | error msg =>
        exfalso
        simp only [EventProcessor.processEventSteps,
          EventProcessor.upsertRawEvent_new s i _ hufind, hn] at h1
        simp at h1
      | ok n =>
        cases h5find : s.normEvents.find?
            (EventProcessor.normHashFilter n.normalizedHash) with
        | some en =>
          exfalso
          simp only [EventProcessor.processEventSteps,
            EventProcessor.upsertRawEvent_new s i _ hufind, hn, h5find] at h1
          simp at h1
        | none =>
          have hfreshN : ∀ m ∈ s.normEvents,
              m.normalizedHash ≠ n.normalizedHash := fun m hm hc =>
            List.find?_eq_none.mp h5find m hm
              ((EventProcessor.normHashFilter_iff _ _).mpr hc)
          have hsucc := EventProcessor.processEvent_fresh_success s i n hn
            hInv.idsLt hfresh hfreshN
          have hdisp : EventProcessor.processEvent s i false =
              EventProcessor.processEventSteps s i false
                (EventProcessor.generateRawHash i) := by
            simp only [EventProcessor.processEvent, h2find]
          rw [← hdisp, hsucc] at h1
          injection h1 with ho hs
          injection ho with hrid hnid hnd
          subst hs
          subst hnd
          constructor
          · refine ⟨s.nextId, ?_⟩
            simp only [EventProcessor.processEvent]
            rw [List.find?_append, h2find]
            simp [EventProcessor.hashStatusFilter]
          · simp only [List.filter_append]
            have hold : s.normEvents.filter
                (fun m => m.normalizedHash == n.normalizedHash) = [] := by
              rw [List.filter_eq_nil_iff]
              intro m hm
              simp only [beq_iff_eq]
              exact hfreshN m hm
            rw [hold]
            simp

/-- The store left by successfully ingesting the fixture event into
the empty store. -/
def storeC1 : Store := (EventProcessor.processEvent emptyStore inpC2 false).2

theorem C1_witness :
    EventProcessor.Inv emptyStore ∧
    EventProcessor.processEvent emptyStore inpC2 false =
      (.success 0 1 recC2, storeC1) ∧
    ((∃ eid, EventProcessor.processEvent storeC1 inpC2 false =
        (.duplicate eid none, storeC1)) ∧
     (storeC1.normEvents.filter
       (fun m => m.normalizedHash == recC2.normalizedHash)).length = 1) :=
  ⟨EventProcessor.Inv_emptyStore,
   by with_unfolding_all decide,
   C1_idempotent_reprocessing emptyStore inpC2 EventProcessor.Inv_emptyStore
     0 1 recC2 storeC1 (by with_unfolding_all decide)⟩

/-- C7: over every sequence of processEvent calls starting from the
empty store, one further call never deletes a RawEvent, a RawEvent
that has reached normalized, failed or duplicate keeps its status, and
any status change could only start from pending or processing. -/
theorem C7_status_transitions_monotone (calls : List (EventInput × Bool))
    (i : EventInput) (sf : Bool) :
    ∀ r ∈ (runEvents calls).rawEvents,
      ∃ r2 ∈ (EventProcessor.processEvent (runEvents calls) i sf).2.rawEvents,
        r2.id = r.id ∧
        ((r.status = RawStatus.normalized ∨ r.status = RawStatus.failed ∨
            r.status = RawStatus.duplicate) → r2.status = r.status) ∧
        (r2.status ≠ r.status →
          (r.status = RawStatus.pending ∨ r.status = RawStatus.processing)) := by
  intro r hr
  have hInv := EventProcessor.Inv_runEvents calls
  obtain ⟨r2, hr2, hid, hst, _, _, _⟩ :=
    (EventProcessor.processEvent_preserves (runEvents calls) i sf hInv).2 r hr
  exact ⟨r2, hr2, hid, fun _ => hst, fun hne => absurd hst hne⟩

/-- The RawEvent committed by the single call of the C7 fixture. -/
def rawFixture : RawEvent :=
  ⟨0, "A", inpC2.payload, EventProcessor.generateRawHash inpC2,
    RawStatus.normalized, none⟩

theorem C7_witness :
    rawFixture ∈ (runEvents [(inpC2, false)]).rawEvents ∧
    ∃ r2 ∈ (EventProcessor.processEvent (runEvents [(inpC2, false)])
        inpC2 true).2.rawEvents,
      r2.id = rawFixture.id ∧
      ((rawFixture.status = RawStatus.normalized ∨
          rawFixture.status = RawStatus.failed ∨
          rawFixture.status = RawStatus.duplicate) →
        r2.status = rawFixture.status) ∧
      (r2.status ≠ rawFixture.status →
        (rawFixture.status = RawStatus.pending ∨
         rawFixture.status = RawStatus.processing)) :=
  ⟨by with_unfolding_all decide,
   C7_status_transitions_monotone [(inpC2, false)] inpC2 true rawFixture
     (by with_unfolding_all decide)⟩

/-- C3: two inputs with different raw content whose normalized forms
agree on (client_id, metric, amount) — the triple the normalized hash
fingerprints, timestamps excluded — yield exactly one NormalizedEvent;
the first call succeeds, the second returns the normalized-level
duplicate outcome and its RawEvent ends with status duplicate. -/
theorem C3_semantic_dedup (s s1 s2 : Store) (o1 o2 : EventProcessor.Outcome)
    (i1 i2 : EventInput) (n1 n2 : NormalizedRecord)
    (h1ok : Normalizer.normalize i1 = .ok n1)
    (h2ok : Normalizer.normalize i2 = .ok n2)
    (hdiff : EventProcessor.generateRawHash i1 ≠ EventProcessor.generateRawHash i2)
    (hsame : n1.normalizedHash = n2.normalizedHash)
    (hids : ∀ r ∈ s.rawEvents, r.id < s.nextId)
    (hfresh1 : ∀ r ∈ s.rawEvents,
      r.contentHash ≠ EventProcessor.generateRawHash i1)
    (hfresh2 : ∀ r ∈ s.rawEvents,
      r.contentHash ≠ EventProcessor.generateRawHash i2)
    (hfreshN : ∀ m ∈ s.normEvents, m.normalizedHash ≠ n1.normalizedHash)
    (hc1 : EventProcessor.processEvent s i1 false = (o1, s1))
    (hc2 : EventProcessor.processEvent s1 i2 false = (o2, s2)) :
    (∃ a b, o1 = .success a b n1) ∧
    (∃ eid nid2, o2 = .duplicate eid (some nid2)) ∧
    (s2.normEvents.filter
      (fun m => m.normalizedHash == n1.normalizedHash)).length = 1 ∧
    ∃ r ∈ s2.rawEvents,
      r.contentHash = EventProcessor.generateRawHash i2 ∧
      r.status = RawStatus.duplicate := by
  have hsucc := EventProcessor.processEvent_fresh_success s i1 n1 h1ok hids
    hfresh1 hfreshN
  rw [hsucc] at hc1
  injection hc1 with ho1 hs1e
  subst hs1e
  -- facts for the second call against the explicit first-call store
  have h2step2 :
      (s.rawEvents ++
        [({ id := s.nextId, source := i1.source, payload := i1.payload,
            contentHash := EventProcessor.generateRawHash i1,
            status := RawStatus.normalized, errorMessage := none } : RawEvent)]).find?
        (EventProcessor.hashStatusFilter (EventProcessor.generateRawHash i2)) =
      none := by
    rw [List.find?_append]
    have hleft : s.rawEvents.find?
        (EventProcessor.hashStatusFilter (EventProcessor.generateRawHash i2)) =
        none := by
      rw [List.find?_eq_none]
      intro r hr hp
      exact hfresh2 r hr ((EventProcessor.hashStatusFilter_iff _ _).mp hp).1
    rw [hleft]
    simp [EventProcessor.hashStatusFilter, hdiff]
  have hufind2 :
      (s.rawEvents ++
        [({ id := s.nextId, source := i1.source, payload := i1.payload,
            contentHash := EventProcessor.generateRawHash i1,
            status := RawStatus.normalized, errorMessage := none } : RawEvent)]).find?
        (EventProcessor.hashFilter (EventProcessor.generateRawHash i2)) =
      none := by
    rw [List.find?_append]
    have hleft : s.rawEvents.find?
        (EventProcessor.hashFilter (EventProcessor.generateRawHash i2)) =
        none := by
      rw [List.find?_eq_none]
      intro r hr hp
      exact hfresh2 r hr ((EventProcessor.hashFilter_iff _ _).mp hp)
    rw [hleft]
    simp [EventProcessor.hashFilter, hdiff]
  have h5find2 :
      (s.normEvents ++
        [({ id := s.nextId + 1, client_id := n1.client_id, metric := n1.metric,
            amount := n1.amount, timestamp := n1.timestamp,
            rawEventId := s.nextId,
            normalizedHash := n1.normalizedHash } : NormalizedEvent)]).find?
        (EventProcessor.normHashFilter n2.normalizedHash) =
      some ({ id := s.nextId + 1, client_id := n1.client_id,
              metric := n1.metric, amount := n1.amount,
              timestamp := n1.timestamp, rawEventId := s.nextId,
              normalizedHash := n1.normalizedHash } : NormalizedEvent) := by
    rw [List.find?_append]
    have hleft : s.normEvents.find?
        (EventProcessor.normHashFilter n2.normalizedHash) = none := by
      rw [List.find?_eq_none]
      intro m hm hp
      exact hfreshN m hm
        (by rw [(EventProcessor.normHashFilter_iff _ _).mp hp, ← hsame])
    rw [hleft]
    simp [EventProcessor.normHashFilter, hsame]
  rw [EventProcessor.processEvent] at hc2
  rw [h2step2] at hc2
  rw [EventProcessor.processEventSteps] at hc2
  rw [EventProcessor.upsertRawEvent_new _ i2 _ hufind2] at hc2
  simp only [h2ok, h5find2] at hc2
  injection hc2 with ho2 hs2e
  refine ⟨⟨s.nextId, s.nextId + 1, ho1.symm⟩, ⟨_, _, ho2.symm⟩, ?_, ?_⟩
  · rw [← hs2e]
    rw [EventProcessor.updateRawEvent_normEvents]
    simp only [List.filter_append]
    have hold : s.normEvents.filter
        (fun m => m.normalizedHash == n1.normalizedHash) = [] := by
      rw [List.filter_eq_nil_iff]
      intro m hm
      simp only [beq_iff_eq]
      exact hfreshN m hm
    rw [hold]
    simp
  · rw [← hs2e]
    rw [EventProcessor.updateRawEvent_rawEvents]
    refine ⟨EventProcessor.applyStatusUpdate (s.nextId + 2)
      RawStatus.duplicate none
      ({ id := s.nextId + 2, source := i2.source, payload := i2.payload,
         contentHash := EventProcessor.generateRawHash i2,
         status := RawStatus.processing, errorMessage := none } : RawEvent),
      ?_, ?_, ?_⟩
    · apply List.mem_map_of_mem
      exact List.mem_append_right _ (List.mem_singleton.mpr rfl)
    · rw [EventProcessor.applyStatusUpdate_contentHash]
    · exact EventProcessor.applyStatusUpdate_status_of_eq _ _ _ _ rfl

/-- A second fixture event with different raw content but the same
normalized triple: price is an alias of amount. -/
def inpC3b : EventInput := ⟨"A", jobj [("metric", .str "x"), ("price", .str "10")]⟩

/-- The store after ingesting both fixture events. -/
def storeC3 : Store := (EventProcessor.processEvent storeC1 inpC3b false).2

theorem C3_witness :
    EventProcessor.generateRawHash inpC2 ≠
      EventProcessor.generateRawHash inpC3b ∧
    ((∃ a b, (EventProcessor.Outcome.success 0 1 recC2) = .success a b recC2) ∧
     (∃ eid nid2, (EventProcessor.Outcome.duplicate 2 (some 1)) =
       .duplicate eid (some nid2)) ∧
     (storeC3.normEvents.filter
       (fun m => m.normalizedHash == recC2.normalizedHash)).length = 1 ∧
     ∃ r ∈ storeC3.rawEvents,
       r.contentHash = EventProcessor.generateRawHash inpC3b ∧
       r.status = RawStatus.duplicate) :=
  ⟨by with_unfolding_all decide,
   C3_semantic_dedup emptyStore storeC1 storeC3
     (.success 0 1 recC2) (.duplicate 2 (some 1)) inpC2 inpC3b recC2 recC2
     (by with_unfolding_all decide)
     (by with_unfolding_all decide)
     (by with_unfolding_all decide)
     rfl
     (by intro r hr; simp [emptyStore] at hr)
     (by intro r hr; simp [emptyStore] at hr)
     (by intro r hr; simp [emptyStore] at hr)
     (by intro m hm; simp [emptyStore] at hm)
     (by with_unfolding_all decide)
     (by with_unfolding_all decide)⟩

/-- Key lookup in a JS object depends only on which value each key is
bound to, not on field order, as long as keys are not repeated. -/
theorem lookup_ofList_perm {p1 p2 : List (String × JSValue)}
    (hperm : p1.Perm p2) :
    (p1.map Prod.fst).Nodup →
    ∀ k, (JSFields.ofList p1).lookup k = (JSFields.ofList p2).lookup k := by
  induction hperm with
  | nil => intro _ k; rfl
  | cons x h ih =>
    intro hnd k
    obtain ⟨x1, x2⟩ := x
    simp only [JSFields.ofList, JSFields.lookup]
    split
    · rfl
    · exact ih (by simp only [List.map_cons, List.nodup_cons] at hnd; exact hnd.2) k
  | swap x y l =>
    intro hnd k
    obtain ⟨x1, x2⟩ := x
    obtain ⟨y1, y2⟩ := y
    have hxy : y1 ≠ x1 := by
      simp only [List.map_cons, List.nodup_cons, List.mem_cons] at hnd
      exact fun he => hnd.1 (Or.inl he)
    simp only [JSFields.ofList, JSFields.lookup]
    by_cases h1 : y1 = k <;> by_cases h2 : x1 = k
    · exact absurd (h1.trans h2.symm) hxy
    · simp [h1, h2]
    · simp [h1, h2]
    · simp [h1, h2]
  | trans h12 h23 ih1 ih2 =>
    intro hnd k
    have hnd2 := ((h12.map Prod.fst).nodup_iff).mp hnd
    exact (ih1 hnd k).trans (ih2 hnd2 k)

/-- C4 (amended): the normalized fingerprint is independent of payload
field insertion order: two payloads binding the same keys to the same
values in different orders normalize to identical records, hence to
identical normalized hashes.  The raw content hash, by contrast,
serializes the payload in insertion order, so it does distinguish the
two payloads (see the counterexample for the claim as stated). -/
theorem C4_amended_normalize_order_independent (src : String)
    (p1 p2 : List (String × JSValue))
    (hperm : p1.Perm p2) (hnd : (p1.map Prod.fst).Nodup) :
    Normalizer.normalize ⟨src, jobj p1⟩ = Normalizer.normalize ⟨src, jobj p2⟩ := by
  have hAppEq : Normalizer.applyFieldMapping (jobj p1) =
      Normalizer.applyFieldMapping (jobj p2) := by
    funext slots m
    unfold Normalizer.applyFieldMapping
    rw [show jsPayloadLookup (jobj p1) m.1 = jsPayloadLookup (jobj p2) m.1 by
      simp only [jobj, jsPayloadLookup]
      exact lookup_ofList_perm hperm hnd m.1]
  unfold Normalizer.normalize
  simp only [jobj, jsFalsy, isTypeofObject]
  rw [show Normalizer.applyFieldMapping (JSValue.obj (JSFields.ofList p1)) =
      Normalizer.applyFieldMapping (JSValue.obj (JSFields.ofList p2)) by
    simpa only [jobj] using hAppEq]

/-- C4 counterexample: the raw content hash is computed from the
insertion-ordered serialization of (source, payload), so two payloads
holding the same key-value pairs in different orders hash differently,
contradicting the claim that both hashes agree. -/
theorem C4_counterexample :
    EventProcessor.generateRawHash
      ⟨"A", jobj [("a", .str "1"), ("b", .str "2")]⟩ ≠
    EventProcessor.generateRawHash
      ⟨"A", jobj [("b", .str "2"), ("a", .str "1")]⟩ := by
  with_unfolding_all decide

theorem C4_witness :
    (([("a", JSValue.str "1"), ("b", JSValue.str "2")]).map Prod.fst).Nodup ∧
    Normalizer.normalize ⟨"A", jobj [("a", .str "1"), ("b", .str "2")]⟩ =
      Normalizer.normalize ⟨"A", jobj [("b", .str "2"), ("a", .str "1")]⟩ :=
  ⟨by decide,
   C4_amended_normalize_order_independent "A"
     [("a", .str "1"), ("b", .str "2")] [("b", .str "2"), ("a", .str "1")]
     (List.Perm.swap ("b", JSValue.str "2") ("a", JSValue.str "1") [])
     (by decide)⟩

/-- The NormalizedEvent committed by the concurrent transaction in the
C5 race fixture: same normalized hash as the fixture event. -/
def racerNorm : NormalizedEvent :=
  { id := 99, client_id := "A", metric := some "x", amount := some 10,
    timestamp := none, rawEventId := 98,
    normalizedHash := ("A", some "x", some 10) }

/-- C5 counterexample: when the NormalizedEvent insert fails with the
storage UniqueConstraintViolation (a concurrently committed record
with the same normalizedHash), processEvent does not convert it to the
duplicate outcome: the single generic catch block returns
processing_error. -/
theorem C5_counterexample :
    (EventProcessor.processEventWithConcurrentInsert emptyStore inpC2 false
      (some racerNorm)).1 =
      .processingError EventProcessor.uniqueViolationMessage ∧
    ∀ eid nid,
      (EventProcessor.processEventWithConcurrentInsert emptyStore inpC2 false
        (some racerNorm)).1 ≠ .duplicate eid nid := by
  have h : (EventProcessor.processEventWithConcurrentInsert emptyStore inpC2
      false (some racerNorm)).1 =
      .processingError EventProcessor.uniqueViolationMessage := by
    with_unfolding_all decide
  refine ⟨h, ?_⟩
  intro eid nid hcontra
  rw [h] at hcontra
  cases hcontra

/-- C5 (amended): processEvent has no handler specific to the
UniqueConstraintViolation raised when the NormalizedEvent insert loses
the race against a concurrently committed record with the same
normalizedHash: the failure reaches the single generic catch block,
which rolls back and returns processing_error (never duplicate); the
duplicate outcome is produced only by the lookup that precedes the
insert. -/
theorem C5_amended_unique_violation_is_generic_error (s : Store)
    (i : EventInput) (n : NormalizedRecord) (racer : NormalizedEvent)
    (hok : Normalizer.normalize i = .ok n)
    (hconflict : racer.normalizedHash = n.normalizedHash)
    (hfresh : ∀ r ∈ s.rawEvents,
      r.contentHash ≠ EventProcessor.generateRawHash i)
    (hfreshN : ∀ m ∈ s.normEvents, m.normalizedHash ≠ n.normalizedHash) :
    EventProcessor.processEventWithConcurrentInsert s i false (some racer) =
      (.processingError EventProcessor.uniqueViolationMessage, s) ∧
    ∀ eid nid,
      (EventProcessor.processEventWithConcurrentInsert s i false
        (some racer)).1 ≠ .duplicate eid nid := by
  have h2 : s.rawEvents.find?
      (EventProcessor.hashStatusFilter (EventProcessor.generateRawHash i)) =
      none := by
    rw [List.find?_eq_none]
    intro r hr hp
    exact hfresh r hr ((EventProcessor.hashStatusFilter_iff _ _).mp hp).1
  have hu : s.rawEvents.find?
      (EventProcessor.hashFilter (EventProcessor.generateRawHash i)) = none := by
    rw [List.find?_eq_none]
    intro r hr hp
    exact hfresh r hr ((EventProcessor.hashFilter_iff _ _).mp hp)
  have h5 : s.normEvents.find?
      (EventProcessor.normHashFilter n.normalizedHash) = none := by
    rw [List.find?_eq_none]
    intro m hm hp
    exact hfreshN m hm ((EventProcessor.normHashFilter_iff _ _).mp hp)
  have hres : EventProcessor.processEventWithConcurrentInsert s i false
      (some racer) =
      (.processingError EventProcessor.uniqueViolationMessage, s) := by
    simp only [EventProcessor.processEventWithConcurrentInsert, h2,
      EventProcessor.processEventStepsWithConcurrentInsert,
      EventProcessor.upsertRawEvent_new s i _ hu, hok, h5, if_false,
      hconflict]
    simp [EventProcessor.recoverRawEventStatus, hu]
  refine ⟨hres, ?_⟩
  intro eid nid hcontra
  rw [hres] at hcontra
  cases hcontra

theorem C5_witness :
    racerNorm.normalizedHash = recC2.normalizedHash ∧
    (EventProcessor.processEventWithConcurrentInsert emptyStore inpC2 false
       (some racerNorm) =
       (.processingError EventProcessor.uniqueViolationMessage, emptyStore) ∧
     ∀ eid nid,
       (EventProcessor.processEventWithConcurrentInsert emptyStore inpC2 false
         (some racerNorm)).1 ≠ .duplicate eid nid) :=
  ⟨rfl,
   C5_amended_unique_violation_is_generic_error emptyStore inpC2 recC2
     racerNorm (by with_unfolding_all decide) rfl
     (by intro r hr; simp [emptyStore] at hr)
     (by intro m hm; simp [emptyStore] at hm)⟩

/-- The invalid fixture input: a payload that is not an object. -/
def inpC6 : EventInput := ⟨"A", .str "oops"⟩

/-- C6 counterexample: on an input rejected as InvalidEvent,
processEvent does perform a storage write: a RawEvent for the content
hash of the input is created and committed with status failed. -/
theorem C6_counterexample :
    (EventProcessor.processEvent emptyStore inpC6 false).1 =
      .validationError "Invalid event: missing source or payload" 0 ∧
    ∃ r ∈ (EventProcessor.processEvent emptyStore inpC6 false).2.rawEvents,
      r.contentHash = EventProcessor.generateRawHash inpC6 ∧
      r.status = RawStatus.failed := by
  with_unfolding_all decide

/-- C6 (amended): an input the normalizer rejects as InvalidEvent is
not rejected before storage writes: processEvent upserts the RawEvent
inside the transaction and then commits it with status failed and the
validation error message.  Only the NormalizedEvent collection stays
untouched; on a previously unseen content hash exactly one RawEvent is
created. -/
theorem C6_amended_invalid_event_commits_failed_rawevent (s : Store)
    (i : EventInput) (sf : Bool) (msg : String)
    (hbad : Normalizer.normalize i = .error msg)
    (hids : ∀ r ∈ s.rawEvents, r.id < s.nextId)
    (hfresh : ∀ r ∈ s.rawEvents,
      r.contentHash ≠ EventProcessor.generateRawHash i) :
    EventProcessor.processEvent s i sf =
      (.validationError msg s.nextId,
       ⟨s.rawEvents ++
          [⟨s.nextId, i.source, i.payload, EventProcessor.generateRawHash i,
            .failed, some msg⟩], s.normEvents, s.nextId + 1⟩) := by
  have h2 : s.rawEvents.find?
      (EventProcessor.hashStatusFilter (EventProcessor.generateRawHash i)) =
      none := by
    rw [List.find?_eq_none]
    intro r hr hp
    exact hfresh r hr ((EventProcessor.hashStatusFilter_iff _ _).mp hp).1
  have hu : s.rawEvents.find?
      (EventProcessor.hashFilter (EventProcessor.generateRawHash i)) = none := by
    rw [List.find?_eq_none]
    intro r hr hp
    exact hfresh r hr ((EventProcessor.hashFilter_iff _ _).mp hp)
  simp only [EventProcessor.processEvent, h2, EventProcessor.processEventSteps,
    EventProcessor.upsertRawEvent_new s i _ hu, hbad]
  unfold EventProcessor.updateRawEvent
  simp only []
  rw [EventProcessor.map_applyStatusUpdate_fresh s hids]
  simp [EventProcessor.applyStatusUpdate]

theorem C6_witness :
    Normalizer.normalize inpC6 =
      .error "Invalid event: missing source or payload" ∧
    EventProcessor.processEvent emptyStore inpC6 false =
      (.validationError "Invalid event: missing source or payload" 0,
       ⟨[⟨0, "A", .str "oops", EventProcessor.generateRawHash inpC6,
          .failed, some "Invalid event: missing source or payload"⟩], [], 1⟩) :=
  ⟨by with_unfolding_all decide,
   by
    have h := C6_amended_invalid_event_commits_failed_rawevent emptyStore inpC6
      false "Invalid event: missing source or payload"
      (by with_unfolding_all decide)
      (by intro r hr; simp [emptyStore] at hr)
      (by intro r hr; simp [emptyStore] at hr)
    simpa [emptyStore, inpC6] using h⟩

namespace Normalizer

end Normalizer

/-- C9: over exactly the NormalizedEvents with (client A, amount 10),
(client A, amount 30) and (client B, amount 5), grouping by client
yields for A count 2, total 40, average 20, min 10, max 30 and for B
count 1, total 5, average 5, min 5, max 5; the ungrouped aggregation
over the same records yields count 3 and total 45; the by-client
endpoint reports the same grouped figures sorted by descending total. -/
theorem C9_aggregation_fixture :
    Aggregates.aggregatesEndpoint ⟨none, none, none⟩ true demoNormalizedEvents =
      [ { groupId := some "A", totalAmount := 40, averageAmount := 20,
          count := 2, minAmount := 10, maxAmount := 30,
          uniqueMetrics := [none] },
        { groupId := some "B", totalAmount := 5, averageAmount := 5,
          count := 1, minAmount := 5, maxAmount := 5,
          uniqueMetrics := [none] } ] ∧
    Aggregates.aggregatesEndpoint ⟨none, none, none⟩ false demoNormalizedEvents =
      [ { groupId := none, totalAmount := 45, averageAmount := 15,
          count := 3, minAmount := 5, maxAmount := 30,
          uniqueMetrics := [none] } ] ∧
    Aggregates.aggregatesByClient none none demoNormalizedEvents =
      [ { client_id := "A", totalAmount := 40, averageAmount := 20,
          count := 2, metrics := [none] },
        { client_id := "B", totalAmount := 5, averageAmount := 5,
          count := 1, metrics := [none] } ] := by
  with_unfolding_all decide
